import Mathlib

/-!
# Formal model of the CoachTriathlon training-analysis engine

Shallow embedding of the pure analysis core of `strava_client.py`:
heart-rate zone models, the Banister TRIMP calculator, the time-in-zone
estimator, the aerobic-decoupling estimator, and the weekly aggregation
(daily TRIMP buckets, monotony/strain, per-type and weekly time in zones).

Conventions of the embedding:
* Python floats are modelled as exact rationals (`ℚ`); Python ints as `ℤ`.
* `math.exp` and `math.sqrt` are modelled as explicit function parameters
  (`expf`, `sqrtf`); a theorem that needs a property of the real function
  (positivity of `exp`, exactness of `sqrt` at a perfect square) takes it
  as a hypothesis.
* Python's `round` on a float (round-half-to-even, returning an int) is
  `pyround`; `round(x, k)` is `pyround` after scaling by `10^k`.
* Python's `//` on ints (floor division) is `Int.ediv` (divisors here are
  positive, where the two agree), and `math.floor` is `Int.floor`.
* Fallible code (the list indexing in the decoupling estimator's second
  half, which can run past the end of the heart-rate list) returns
  `Except Unit`.
* Python dicts keyed by the zone labels are association lists
  `List (String × ℤ)` in zone order; the daily TRIMP dict is modelled as a
  total function `String → ℚ` defaulting to `0` (matching
  `daily_trimp.get(day_key, 0.0)`).
* Python truthiness tests on numbers (`not avg_hr`, `hrmax or ...`) are
  zero tests; on lists and strings they are emptiness tests; `None` is
  `Option.none`.
-/

/-- Python's `round` on a float: round to the nearest integer, ties to the
even integer (banker's rounding). -/
def pyround (q : ℚ) : ℤ :=
  let f := ⌊q⌋
  let r := q - f
  if r < 1/2 then f
  else if 1/2 < r then f + 1
  else if f % 2 = 0 then f else f + 1

/-- Python's `round(x, 2)`, modelled exactly over `ℚ`. -/
def round2 (q : ℚ) : ℚ := (pyround (100 * q) : ℚ) / 100

/-- Python's `round(x, 1)`, modelled exactly over `ℚ`. -/
def round1 (q : ℚ) : ℚ := (pyround (10 * q) : ℚ) / 10

/-- One step of `_estimate_hrmax`'s loop: `mx = v if mx is None else
max(mx, v)` for a non-null `max_heartrate` field `v`, skip otherwise. -/
def hrmax_step (acc : Option ℚ) (v : Option ℚ) : Option ℚ :=
  match v with
  | none => acc
  | some x => match acc with
    | none => some x
    | some m => some (max m x)

/-- Model of `_estimate_hrmax(activities)`: running maximum of the non-null
`max_heartrate` fields, then `int(round(mx))`; `None` when no session has
one.  The input is the list of `max_heartrate` fields. -/
def estimate_hrmax (maxhrs : List (Option ℚ)) : Option ℤ :=
  (maxhrs.foldl hrmax_step none).map pyround

/-- Model of `_zones_percent_max(hrmax)`: five zones with bounds `floor(f * hrmax)`
for `f = 0.60, 0.70, 0.80, 0.90`; `Z5` is open-ended (`None` upper bound). -/
def zones_percent_max (hrmax : ℤ) : List (String × ℤ × Option ℤ) :=
  [ ("Z1", 0, some ⌊(0.60 : ℚ) * hrmax⌋),
    ("Z2", ⌊(0.60 : ℚ) * hrmax⌋, some ⌊(0.70 : ℚ) * hrmax⌋),
    ("Z3", ⌊(0.70 : ℚ) * hrmax⌋, some ⌊(0.80 : ℚ) * hrmax⌋),
    ("Z4", ⌊(0.80 : ℚ) * hrmax⌋, some ⌊(0.90 : ℚ) * hrmax⌋),
    ("Z5", ⌊(0.90 : ℚ) * hrmax⌋, none) ]

/-- The helper `bpm(p) = int(round(hrrest + p * (hrmax - hrrest)))` of
`_zones_karvonen`. -/
def karvonen_bpm (hrmax hrrest : ℤ) (p : ℚ) : ℤ :=
  pyround ((hrrest : ℚ) + p * ((hrmax : ℚ) - (hrrest : ℚ)))

/-- Model of `_zones_karvonen(hrmax, hrrest=60)`: heart-rate-reserve boundaries
`round(hrrest + p * (hrmax - hrrest))`. -/
def zones_karvonen (hrmax : ℤ) (hrrest : ℤ := 60) : List (String × ℤ × Option ℤ) :=
  [ ("Z1", 0, some (karvonen_bpm hrmax hrrest 0.60)),
    ("Z2", karvonen_bpm hrmax hrrest 0.60, some (karvonen_bpm hrmax hrrest 0.70)),
    ("Z3", karvonen_bpm hrmax hrrest 0.70, some (karvonen_bpm hrmax hrrest 0.80)),
    ("Z4", karvonen_bpm hrmax hrrest 0.80, some (karvonen_bpm hrmax hrrest 0.90)),
    ("Z5", karvonen_bpm hrmax hrrest 0.90, none) ]

/-- The membership test of `_zone_index`'s loop body for one zone:
`hi is None and bpm >= lo`, or `lo <= bpm < hi`. -/
def zone_contains (z : String × ℤ × Option ℤ) (bpm : ℤ) : Bool :=
  match z.2.2 with
  | none => decide (z.2.1 ≤ bpm)
  | some hi => decide (z.2.1 ≤ bpm) && decide (bpm < hi)

/-- Model of `_zone_index(bpm, zones)`: index of the first zone containing `bpm`,
defaulting to `0` when no zone matches. -/
def zone_index (bpm : ℤ) (zones : List (String × ℤ × Option ℤ)) : ℕ :=
  let i := zones.findIdx (fun z => zone_contains z bpm)
  if i < zones.length then i else 0

/-- Predicate `zoneMem zones i v`: the `i`-th zone of `zones` exists and contains the
integer bpm value `v`. -/
def zoneMem (zones : List (String × ℤ × Option ℤ)) (i : ℕ) (v : ℤ) : Bool :=
  match zones.get? i with
  | some z => zone_contains z v
  | none => false

/-- Rational-valued version of `zone_contains`, to talk about the zone
containing a not-necessarily-integer average heart rate. -/
def zone_containsQ (z : String × ℤ × Option ℤ) (v : ℚ) : Bool :=
  match z.2.2 with
  | none => decide ((z.2.1 : ℚ) ≤ v)
  | some hi => decide ((z.2.1 : ℚ) ≤ v) && decide (v < (hi : ℚ))

/-- Predicate `zoneMemQ zones i v`: the `i`-th zone exists and contains the rational
bpm value `v`. -/
def zoneMemQ (zones : List (String × ℤ × Option ℤ)) (i : ℕ) (v : ℚ) : Bool :=
  match zones.get? i with
  | some z => zone_containsQ z v
  | none => false

/-- Model of `_trimp_banister(duration_s, avg_hr, hrmax)` with `math.exp` as the
parameter `expf`.  The truthiness guards `not avg_hr` / `not hrmax` are
zero tests. -/
def trimp_banister (expf : ℚ → ℚ) (duration_s : ℤ) (avg_hr : ℚ) (hrmax : ℤ) : ℚ :=
  if duration_s ≤ 0 ∨ avg_hr = 0 ∨ hrmax = 0 then 0
  else
    let hr_r := max 0 (min 1.2 (avg_hr / (hrmax : ℚ)))
    let dur_min := (duration_s : ℚ) / 60
    dur_min * hr_r * 0.64 * expf (1.92 * hr_r)

/-- One step of the counting loop of `_time_in_zones_from_streams`:
`counts[idx] += step` for a non-null sample, null samples skipped. -/
def tiz_count_step (zones : List (String × ℤ × Option ℤ)) (step : ℤ)
    (cs : List ℤ) (b : Option ℤ) : List ℤ :=
  match b with
  | none => cs
  | some bpm => cs.set (zone_index bpm zones) (cs.getD (zone_index bpm zones) 0 + step)

/-- Model of `_time_in_zones_from_streams(hr_stream, zones, sampling_s)`: classify
every non-null sample, crediting `step` seconds each (`step = sampling_s or
1`), and key the counts by the zone labels. -/
def time_in_zones_from_streams (hr_stream : List (Option ℤ))
    (zones : List (String × ℤ × Option ℤ)) (sampling_s : Option ℤ) :
    List (String × ℤ) :=
  if hr_stream.isEmpty then zones.map (fun z => (z.1, 0))
  else
    let step := match sampling_s with
      | none => 1
      | some s => if s = 0 then 1 else s
    let counts := hr_stream.foldl (tiz_count_step zones step) (List.replicate zones.length 0)
    (zones.map (fun z => z.1)).zip counts

/-- Model of `_time_in_zones_from_avg(avg_hr, duration_s, zones)`: all zeros unless
an average is known (truthy) and the duration positive, in which case the
whole duration goes to the zone of `int(round(avg_hr))`. -/
def time_in_zones_from_avg (avg_hr : Option ℚ) (duration_s : ℤ)
    (zones : List (String × ℤ × Option ℤ)) : List (String × ℤ) :=
  let out := zones.map (fun z => (z.1, (0 : ℤ)))
  match avg_hr with
  | none => out
  | some a =>
    if a = 0 ∨ duration_s ≤ 0 then out
    else
      let idx := zone_index (pyround a) zones
      out.set idx ((zones.map (fun z => z.1)).getD idx "", duration_s)

/-- The pair list of `avg_ratio` inside `_hr_decoupling`:
`[(vv[i], hh[i]) for i in range(len(vv)) if hh[i] and hh[i] > 0]`.
Indexing `hh[i]` past the end of `hh` raises, hence `Except`. -/
def decoupling_pairs : List ℚ → List ℚ → Except Unit (List (ℚ × ℚ))
  | [], _ => .ok []
  | _ :: _, [] => .error ()
  | v :: vs, h :: hs =>
    match decoupling_pairs vs hs with
    | .error e => .error e
    | .ok rest => .ok (if h ≠ 0 ∧ 0 < h then (v, h) :: rest else rest)

/-- Model of `avg_ratio(vv, hh)` inside `_hr_decoupling`: mean of `vv[i] / hh[i]`
over the valid pairs, `None` when there is no valid pair. -/
def ratio_mean (vv hh : List ℚ) : Except Unit (Option ℚ) :=
  match decoupling_pairs vv hh with
  | .error e => .error e
  | .ok ps =>
    if ps = [] then .ok none
    else .ok (some ((ps.map (fun p => p.1 / p.2)).sum / (ps.length : ℚ)))

/-- Model of `_hr_decoupling(hr, vel_mps)`.  Here `n = min(len(hr), len(vel))`; below 60
samples there is no result; otherwise the percentage change between the
two halves' speed/heart-rate ratios, rounded to 2 decimals, `None` when a
half has no valid sample or the first ratio is 0. -/
def hr_decoupling (hr vel_mps : List ℚ) : Except Unit (Option ℚ) :=
  let n := min hr.length vel_mps.length
  if n < 60 then .ok none
  else
    let mid := n / 2
    match ratio_mean (vel_mps.take mid) (hr.take mid),
          ratio_mean (vel_mps.drop mid) (hr.drop mid) with
    | .error e, _ => .error e
    | .ok _, .error e => .error e
    | .ok r1, .ok r2 =>
      match r1, r2 with
      | some a, some b =>
        if a = 0 then .ok none
        else .ok (some (round2 ((b - a) / a * 100)))
      | _, _ => .ok none

/-- The credibility test of `get_weekly_analysis` for using the stream:
`hr_stream and len(hr_stream) >= max(10, duration // 6)`. -/
def stream_credible (hr_stream : Option (List (Option ℤ))) (duration_s : ℤ) : Bool :=
  match hr_stream with
  | none => false
  | some l => !l.isEmpty && decide (max 10 (Int.ediv duration_s 6) ≤ (l.length : ℤ))

/-- The per-session time-in-zone dispatch of `get_weekly_analysis`
(and `get_weekly_details`): stream-based when the stream is credible,
average-based otherwise.  `sampling_s=None` is passed in the stream case. -/
def session_tiz (hr_stream : Option (List (Option ℤ))) (avg_hr : Option ℚ)
    (duration_s : ℤ) (zones : List (String × ℤ × Option ℤ)) : List (String × ℤ) :=
  if stream_credible hr_stream duration_s then
    time_in_zones_from_streams (hr_stream.getD []) zones none
  else
    time_in_zones_from_avg avg_hr duration_s zones

/-- The daily bucket key of `get_weekly_analysis`:
`(b.get("start_date_local") or "")[:10] or "unknown"`. -/
def day_key (start_date_local : Option String) : String :=
  let s := (start_date_local.getD "").take 10
  if s = "" then "unknown" else s

/-- The TRIMP accumulation of `get_weekly_analysis`'s main loop, restricted
to the two accumulators the claims are about: `weekly_trimp += trimp` and
`daily_trimp[day_key] = round(daily_trimp.get(day_key, 0.0) + trimp, 2)`.
A session is its `start_date_local` paired with its TRIMP. -/
def weekly_trimp_step (acc : ℚ × (String → ℚ)) (s : Option String × ℚ) :
    ℚ × (String → ℚ) :=
  (acc.1 + s.2,
   fun k => if k = day_key s.1 then round2 (acc.2 (day_key s.1) + s.2) else acc.2 k)

/-- Folding `weekly_trimp_step` over the week's sessions from the zero
state: the pair (weekly TRIMP, daily TRIMP buckets). -/
def weekly_trimp_fold (sessions : List (Option String × ℚ)) : ℚ × (String → ℚ) :=
  sessions.foldl weekly_trimp_step (0, fun _ => 0)

/-- The weekly time-in-zone accumulation of `get_weekly_analysis`:
`weekly_zone_seconds[z] += int(tiz.get(z, 0))` for each zone label, starting
from `{z: 0}`.  A session is its sport type paired with its
`time_in_zones_s` association list. -/
def weekly_zone_step (acc : List (String × ℤ))
    (s : String × List (String × ℤ)) : List (String × ℤ) :=
  acc.map (fun p => (p.1, p.2 + ((s.2.lookup p.1).getD 0)))

def weekly_zone_fold (zone_labels : List String)
    (sessions : List (String × List (String × ℤ))) : List (String × ℤ) :=
  sessions.foldl weekly_zone_step (zone_labels.map (fun z => (z, 0)))

/-- The `by_type` time-in-zone accumulation of `get_weekly_analysis`: the
`setdefault` dict groups the sessions by sport type, the inner loop then
adds `int(s["time_in_zones_s"].get(z, 0))` per label starting from
`{z: 0}` — i.e. per type it is exactly the weekly accumulation over that
type's sessions, in order. -/
def by_type_zone (zone_labels : List String)
    (sessions : List (String × List (String × ℤ))) (t : String) : List (String × ℤ) :=
  weekly_zone_fold zone_labels (sessions.filter (fun s => s.1 = t))

/-- Model of `_estimate_hrmax(...) or 190` as used in `use_hrmax = hrmax or
_estimate_hrmax(activities) or 190` (Python `or`: first truthy, i.e.
first nonzero non-None value). -/
def hrmax_fallback (maxhrs : List (Option ℚ)) : ℤ :=
  match estimate_hrmax maxhrs with
  | some e => if e = 0 then 190 else e
  | none => 190

/-- Model of `use_hrmax = hrmax or _estimate_hrmax(activities) or 190` of
`get_weekly_analysis`; this value is also what the output surfaces as
`weekly_summary["hrmax_used"]`. -/
def hrmax_used (explicit : Option ℤ) (maxhrs : List (Option ℚ)) : ℤ :=
  match explicit with
  | some hv => if hv = 0 then hrmax_fallback maxhrs else hv
  | none => hrmax_fallback maxhrs

/-- The monotony/strain block of `get_weekly_analysis` over the list of
daily TRIMP values (`daily_trimp.values()`) and the reported weekly
`trimp_total`; `math.sqrt` is the parameter `sqrtf`.  `None` exactly when
there are no daily values. -/
def monotony_strain (daily : List ℚ) (trimp_total : ℚ) (sqrtf : ℚ → ℚ) :
    Option (ℚ × ℚ) :=
  if daily = [] then none
  else
    let mean := daily.sum / (daily.length : ℚ)
    let std := if 1 < daily.length then
        sqrtf ((daily.map (fun x => (x - mean) ^ 2)).sum / ((daily.length : ℚ) - 1))
      else 0
    let monotony := round2 (mean / (if 0 < std then std else 1))
    some (monotony, round2 (trimp_total * monotony))

/-- Mean of a list of daily TRIMP values, as the spec words it. -/
def daily_mean (daily : List ℚ) : ℚ := daily.sum / (daily.length : ℚ)

/-- Sample variance (divisor `n - 1`) of a list of daily TRIMP values, as
the spec words it. -/
def sample_var (daily : List ℚ) : ℚ :=
  (daily.map (fun x => (x - daily_mean daily) ^ 2)).sum / ((daily.length : ℚ) - 1)

/-- Modelled from the spec: the decoupling contract of §4.4 (with the
correction that a zero first-half ratio yields no result, and both halves
restricted to the overlapping window of length `n = min(len(hr),
len(speed))`): mean of per-sample `speed / heart_rate` over the samples of
each half with `heart_rate > 0`. -/
def decoupling_spec (hr vel_mps : List ℚ) : Option ℚ :=
  let n := min hr.length vel_mps.length
  if n < 60 then none
  else
    let mid := n / 2
    let firstPairs := ((vel_mps.take n).take mid).zip ((hr.take n).take mid)
    let secondPairs := ((vel_mps.take n).drop mid).zip ((hr.take n).drop mid)
    let valid1 := firstPairs.filter (fun p => 0 < p.2)
    let valid2 := secondPairs.filter (fun p => 0 < p.2)
    if valid1 = [] ∨ valid2 = [] then none
    else
      let r1 := (valid1.map (fun p => p.1 / p.2)).sum / (valid1.length : ℚ)
      let r2 := (valid2.map (fun p => p.1 / p.2)).sum / (valid2.length : ℚ)
      if r1 = 0 then none
      else some (round2 ((r2 - r1) / r1 * 100))

/-! ## C1: the TRIMP calculator -/

/-- C1: for every `duration_s`, `avg_hr`, `hr_max`, the TRIMP calculator
returns `(duration_s / 60) * r * 0.64 * exp(1.92 * r)` with
`r = clamp(avg_hr / hr_max, 0.0, 1.2)` when `duration_s > 0`, `avg_hr ≠ 0`
and `hr_max ≠ 0`; returns exactly 0 when `duration_s ≤ 0`, `avg_hr` is
falsy/zero, or `hr_max` is falsy/zero; and the result is always ≥ 0
(given that `exp` is nonnegative, which the real `math.exp` is). -/
theorem trimp_banister_spec (expf : ℚ → ℚ) (d : ℤ) (a : ℚ) (h : ℤ)
    (hexp : ∀ x, 0 ≤ expf x) :
    (d ≤ 0 ∨ a = 0 ∨ h = 0 → trimp_banister expf d a h = 0) ∧
    (0 < d → a ≠ 0 → h ≠ 0 →
      trimp_banister expf d a h =
        ((d : ℚ) / 60) * max 0 (min 1.2 (a / (h : ℚ))) * 0.64 *
          expf (1.92 * max 0 (min 1.2 (a / (h : ℚ))))) ∧
    0 ≤ trimp_banister expf d a h := by
  refine ⟨fun hg => by simp only [trimp_banister, if_pos hg], ?_, ?_⟩
  · intro hd ha hh
    have hg : ¬(d ≤ 0 ∨ a = 0 ∨ h = 0) := by push_neg; exact ⟨by omega, ha, hh⟩
    simp only [trimp_banister, if_neg hg]
  · by_cases hg : d ≤ 0 ∨ a = 0 ∨ h = 0
    · simp [trimp_banister, hg]
    · simp only [trimp_banister, if_neg hg]
      push_neg at hg
      have hd : (0 : ℚ) ≤ (d : ℚ) := by
        have : (0 : ℤ) ≤ d := le_of_lt (by omega)
        exact_mod_cast this
      have h1 : (0 : ℚ) ≤ (d : ℚ) / 60 := by positivity
      have h2 : (0 : ℚ) ≤ max 0 (min 1.2 (a / (h : ℚ))) := le_max_left _ _
      have h3 := hexp (1.92 * max 0 (min 1.2 (a / (h : ℚ))))
      have h4 : (0 : ℚ) ≤ 0.64 := by norm_num
      exact mul_nonneg (mul_nonneg (mul_nonneg h1 h2) h4) h3

/-- Witness for C1: `expf = const 3`, a 60-second session at 150 bpm with
`hr_max = 200` gives `1 * 0.75 * 0.64 * 3 = 36/25 ≥ 0`. -/
theorem trimp_banister_spec_witness :
    trimp_banister (fun _ => 3) 60 150 200 = 36/25 ∧
    0 ≤ trimp_banister (fun _ => 3) 60 150 200 :=
  ⟨by norm_num [trimp_banister],
   (trimp_banister_spec (fun _ => 3) 60 150 200 (fun _ => by norm_num)).2.2⟩

/-! ## C7: the zone boundary formulas -/

/-- C7: the percent_max boundary at fraction `f` is `floor(f * hr_max)` and
the karvonen boundary is `round(hr_rest + f * (hr_max - hr_rest))` (Python
`round`, i.e. half-to-even) for `f ∈ {0.60, 0.70, 0.80, 0.90}`; with
`hr_max = 200`, percent_max yields boundaries `[0, 120, 140, 160, 180, ∞)`
and a 150 bpm sample is assigned to Z3. -/
theorem zones_boundary_formulas (hmax hrest : ℤ) :
    zones_percent_max hmax =
      [ ("Z1", 0, some ⌊(0.60 : ℚ) * hmax⌋),
        ("Z2", ⌊(0.60 : ℚ) * hmax⌋, some ⌊(0.70 : ℚ) * hmax⌋),
        ("Z3", ⌊(0.70 : ℚ) * hmax⌋, some ⌊(0.80 : ℚ) * hmax⌋),
        ("Z4", ⌊(0.80 : ℚ) * hmax⌋, some ⌊(0.90 : ℚ) * hmax⌋),
        ("Z5", ⌊(0.90 : ℚ) * hmax⌋, none) ] ∧
    zones_karvonen hmax hrest =
      [ ("Z1", 0, some (pyround ((hrest : ℚ) + 0.60 * ((hmax : ℚ) - hrest)))),
        ("Z2", pyround ((hrest : ℚ) + 0.60 * ((hmax : ℚ) - hrest)),
               some (pyround ((hrest : ℚ) + 0.70 * ((hmax : ℚ) - hrest)))),
        ("Z3", pyround ((hrest : ℚ) + 0.70 * ((hmax : ℚ) - hrest)),
               some (pyround ((hrest : ℚ) + 0.80 * ((hmax : ℚ) - hrest)))),
        ("Z4", pyround ((hrest : ℚ) + 0.80 * ((hmax : ℚ) - hrest)),
               some (pyround ((hrest : ℚ) + 0.90 * ((hmax : ℚ) - hrest)))),
        ("Z5", pyround ((hrest : ℚ) + 0.90 * ((hmax : ℚ) - hrest)), none) ] ∧
    zones_percent_max 200 =
      [("Z1", 0, some 120), ("Z2", 120, some 140), ("Z3", 140, some 160),
       ("Z4", 160, some 180), ("Z5", 180, none)] ∧
    zone_index 150 (zones_percent_max 200) = 2 ∧
    ((zones_percent_max 200).map (fun z => z.1)).get?
        (zone_index 150 (zones_percent_max 200)) = some "Z3" := by
  have h200 : zones_percent_max 200 =
      [("Z1", 0, some 120), ("Z2", 120, some 140), ("Z3", 140, some 160),
       ("Z4", 160, some 180), ("Z5", 180, none)] := by
    norm_num [zones_percent_max]
  refine ⟨rfl, rfl, h200, ?_, ?_⟩
  · rw [h200]; decide
  · rw [h200]; decide

/-! ## Helper lemmas for the decoupling estimator (C3, C4) -/

/-- When the speed slice is no longer than the heart-rate slice, the pair
comprehension succeeds and is the filtered zip of the two slices. -/
theorem decoupling_pairs_ok : ∀ (vv hh : List ℚ), vv.length ≤ hh.length →
    decoupling_pairs vv hh = .ok ((vv.zip hh).filter (fun p => 0 < p.2))
  | [], _, _ => by simp [decoupling_pairs]
  | v :: vs, [], h => by simp at h
  | v :: vs, w :: ws, h => by
    have ih := decoupling_pairs_ok vs ws (by simpa using h)
    by_cases hw : (0 : ℚ) < w
    · simp [decoupling_pairs, ih, hw, ne_of_gt hw]
    · have hw2 : ¬(w ≠ 0 ∧ 0 < w) := fun hc => hw hc.2
      simp [decoupling_pairs, ih, hw, hw2]

/-- When the speed slice is strictly longer than the heart-rate slice, the
pair comprehension indexes past the end of the heart-rate slice: error. -/
theorem decoupling_pairs_err : ∀ (vv hh : List ℚ), hh.length < vv.length →
    decoupling_pairs vv hh = .error ()
  | [], hh, h => by simp at h
  | v :: vs, [], _ => by simp [decoupling_pairs]
  | v :: vs, w :: ws, h => by
    have ih := decoupling_pairs_err vs ws (by simpa using h)
    simp [decoupling_pairs, ih]

theorem ratio_mean_err (vv hh : List ℚ) (h : hh.length < vv.length) :
    ratio_mean vv hh = .error () := by
  simp [ratio_mean, decoupling_pairs_err vv hh h]

theorem ratio_mean_ok (vv hh : List ℚ) (h : vv.length ≤ hh.length) :
    ratio_mean vv hh =
      (if ((vv.zip hh).filter (fun p => 0 < p.2)) = [] then .ok none
       else .ok (some (((((vv.zip hh).filter (fun p => 0 < p.2)).map
          (fun p => p.1 / p.2)).sum) /
         ((((vv.zip hh).filter (fun p => 0 < p.2)).length : ℚ))))) := by
  simp only [ratio_mean, decoupling_pairs_ok vv hh h]

/-- Mean speed/heart-rate ratio of a constant-speed, constant-1-bpm block. -/
theorem ratio_mean_replicate (n : ℕ) (hn : n ≠ 0) (a : ℚ) :
    ratio_mean (List.replicate n a) (List.replicate n 1) = .ok (some a) := by
  rw [ratio_mean_ok _ _ (by simp)]
  simp only [List.zip_replicate']
  have hf : List.filter (fun p : ℚ × ℚ => decide (0 < p.2)) (List.replicate n (a, 1)) =
      List.replicate n (a, 1) := by
    rw [List.filter_replicate]; simp
  rw [hf]
  have hne : List.replicate n (a, (1 : ℚ)) ≠ [] :=
    fun hh => hn (by simpa using congrArg List.length hh)
  rw [if_neg hne]
  simp only [List.map_replicate, List.sum_replicate, List.length_replicate]
  norm_num
  rw [mul_comm, mul_div_assoc, div_self (by exact_mod_cast hn), mul_one]

/-! ## C4: the decoupling estimator reads past the overlap -/

/-- C4 (code bug): with a 60-sample heart-rate series and a 61-sample speed
series — both well-formed, all samples 1 — the estimator's second half
indexes the heart-rate list out of range (`hr[i]` for `i` beyond the
overlap), instead of operating only on the overlapping window: the run
fails where the claim (and the spec's "use the shorter length when
paired") says no sample beyond the shorter length is ever read and no
error is raised. -/
theorem hr_decoupling_overrun_bug :
    hr_decoupling (List.replicate 60 (1 : ℚ)) (List.replicate 61 (1 : ℚ)) = .error () ∧
    (List.replicate 60 (1 : ℚ)).length < (List.replicate 61 (1 : ℚ)).length := by
  constructor
  · have key : ∀ (hr vel : List ℚ), min hr.length vel.length = 60 →
        ratio_mean (vel.take 30) (hr.take 30) = .ok (some 1) →
        ratio_mean (vel.drop 30) (hr.drop 30) = .error () →
        hr_decoupling hr vel = .error () := by
      intro hr vel hn h1 h2
      simp only [hr_decoupling, hn]
      norm_num [h1, h2]
    apply key
    · simp
    · rw [List.take_replicate, List.take_replicate]
      norm_num
      exact ratio_mean_replicate 30 (by norm_num) 1
    · apply ratio_mean_err
      simp
  · simp

/-- Zipping ignores the part of the right list beyond the left list's
length. -/
theorem zip_take_right {α β : Type} : ∀ (l1 : List α) (l2 : List β) (k : ℕ),
    l1.length ≤ k → l1.zip (l2.take k) = l1.zip l2
  | [], _, _, _ => by simp
  | a :: t1, [], k, _ => by simp
  | a :: t1, b :: t2, k, h => by
    match k, h with
    | k + 1, h =>
      simp only [List.take_succ_cons, List.zip_cons_cons]
      rw [zip_take_right t1 t2 k (by simpa using h)]

/-! ## C3: decoupling result characterization -/

/-- C3 (counterexample): 60 heart-rate samples of 1 bpm paired with 60
speed samples of 0: the overlap is 60 samples and both halves consist
entirely of valid (`heart_rate > 0`) samples, yet the estimator returns no
result (the first half's mean ratio is 0), where the claim promises a
finite percentage. -/
theorem hr_decoupling_zero_ratio_cex :
    hr_decoupling (List.replicate 60 (1 : ℚ)) (List.replicate 60 (0 : ℚ)) = .ok none ∧
    min (List.replicate 60 (1 : ℚ)).length (List.replicate 60 (0 : ℚ)).length = 60 ∧
    (((List.replicate 60 (0 : ℚ)).take 30).zip
        ((List.replicate 60 (1 : ℚ)).take 30)).filter (fun p => 0 < p.2) ≠ [] ∧
    (((List.replicate 60 (0 : ℚ)).drop 30).zip
        ((List.replicate 60 (1 : ℚ)).drop 30)).filter (fun p => 0 < p.2) ≠ [] := by
  refine ⟨?_, by simp, ?_, ?_⟩
  · have key : ∀ (hr vel : List ℚ), min hr.length vel.length = 60 →
        ratio_mean (vel.take 30) (hr.take 30) = .ok (some 0) →
        ratio_mean (vel.drop 30) (hr.drop 30) = .ok (some 0) →
        hr_decoupling hr vel = .ok none := by
      intro hr vel hn h1 h2
      simp only [hr_decoupling, hn]
      norm_num [h1, h2]
    apply key
    · simp
    · rw [List.take_replicate, List.take_replicate]
      norm_num
      exact ratio_mean_replicate 30 (by norm_num) 0
    · rw [List.drop_replicate, List.drop_replicate]
      norm_num
      exact ratio_mean_replicate 30 (by norm_num) 0
  · rw [List.take_replicate, List.take_replicate]
    norm_num
  · rw [List.drop_replicate, List.drop_replicate]
    norm_num

/-- C3 (amended): no result below 60 overlap samples; and whenever the
heart-rate series is at least as long as the speed series (otherwise the
estimator fails instead of returning — see C4), the result is exactly the
spec-side estimator: the mean speed/heart-rate ratio over the valid
(`heart_rate > 0`) samples of each half of the overlapping window, no
result when a half has no valid sample or the first half's mean ratio is
0, else `(r2 - r1) / r1 * 100` rounded to 2 decimals. -/
theorem hr_decoupling_spec_correct (hr vel : List ℚ) :
    (min hr.length vel.length < 60 → hr_decoupling hr vel = .ok none) ∧
    (vel.length ≤ hr.length → hr_decoupling hr vel = .ok (decoupling_spec hr vel)) := by
  constructor
  · intro h
    simp only [hr_decoupling, if_pos h]
  · intro hlen
    have hn : min hr.length vel.length = vel.length := min_eq_right hlen
    by_cases h60 : vel.length < 60
    · simp only [hr_decoupling, decoupling_spec, hn, if_pos h60]
    · push_neg at h60
      have hveltn : vel.take vel.length = vel := List.take_length vel
      have e1 : (hr.take vel.length).take (vel.length / 2) = hr.take (vel.length / 2) := by
        rw [List.take_take]
        congr 1
        omega
      have e2 : (hr.take vel.length).drop (vel.length / 2) =
          (hr.drop (vel.length / 2)).take (vel.length - vel.length / 2) := by
        rw [List.drop_take]
      have e3 : (vel.drop (vel.length / 2)).zip
            ((hr.drop (vel.length / 2)).take (vel.length - vel.length / 2)) =
          (vel.drop (vel.length / 2)).zip (hr.drop (vel.length / 2)) := by
        apply zip_take_right
        simp
      have r1 := ratio_mean_ok (vel.take (vel.length / 2)) (hr.take (vel.length / 2)) (by
        simp only [List.length_take]
        have := Nat.div_le_self vel.length 2
        omega)
      have r2 := ratio_mean_ok (vel.drop (vel.length / 2)) (hr.drop (vel.length / 2)) (by
        simp only [List.length_drop]
        omega)
      simp only [hr_decoupling, decoupling_spec, hn, if_neg (by omega : ¬vel.length < 60),
        hveltn, e1, e2, e3, r1, r2]
      by_cases p1 : ((vel.take (vel.length / 2)).zip
          (hr.take (vel.length / 2))).filter (fun p => 0 < p.2) = []
      · by_cases p2 : ((vel.drop (vel.length / 2)).zip
            (hr.drop (vel.length / 2))).filter (fun p => 0 < p.2) = [] <;>
          simp [p1, p2]
      · by_cases p2 : ((vel.drop (vel.length / 2)).zip
            (hr.drop (vel.length / 2))).filter (fun p => 0 < p.2) = []
        · simp [p1, p2]
        · simp only [p1, p2, if_neg, if_false]
          by_cases hz : ((((vel.take (vel.length / 2)).zip
                (hr.take (vel.length / 2))).filter (fun p => 0 < p.2)).map
                  (fun p => p.1 / p.2)).sum /
              ((((vel.take (vel.length / 2)).zip
                (hr.take (vel.length / 2))).filter (fun p => 0 < p.2)).length : ℚ) = 0
          · simp [p1, p2, hz]
          · simp [p1, p2, hz]

/-- Witness for C3: 60 samples of speed 1 at 1 bpm in each series — the
heart-rate series is (weakly) longer, the estimator agrees with the spec
estimator, and the concrete decoupling is a finite percentage, 0%. -/
theorem hr_decoupling_spec_correct_witness :
    (List.replicate 60 (1 : ℚ)).length ≤ (List.replicate 60 (1 : ℚ)).length ∧
    hr_decoupling (List.replicate 60 (1 : ℚ)) (List.replicate 60 (1 : ℚ)) =
      .ok (decoupling_spec (List.replicate 60 (1 : ℚ)) (List.replicate 60 (1 : ℚ))) ∧
    decoupling_spec (List.replicate 60 (1 : ℚ)) (List.replicate 60 (1 : ℚ)) = some 0 :=
  ⟨le_refl _,
   (hr_decoupling_spec_correct (List.replicate 60 (1 : ℚ)) (List.replicate 60 (1 : ℚ))).2
     (le_refl _),
   by
    norm_num [decoupling_spec, List.take_replicate, List.drop_replicate,
      List.zip_replicate', List.filter_replicate, List.map_replicate,
      List.sum_replicate, round2, pyround]⟩

/-! ## C9: the applied maximum heart rate -/

/-- The running-maximum fold is `none` exactly when it starts from `none`
and sees no non-null value. -/
theorem hrmax_fold_none : ∀ (l : List (Option ℚ)) (acc : Option ℚ),
    l.foldl hrmax_step acc = none ↔ acc = none ∧ l.filterMap id = []
  | [], acc => by simp
  | none :: t, acc => by
    simpa [hrmax_step] using hrmax_fold_none t acc
  | some x :: t, acc => by
    have ih := hrmax_fold_none t (hrmax_step acc (some x))
    have hs : hrmax_step acc (some x) ≠ none := by
      cases acc <;> simp [hrmax_step]
    simp only [List.foldl_cons, ih]
    simp [hs]

/-- The running-maximum fold computes a maximum of the start value and the
non-null entries. -/
theorem hrmax_fold_max : ∀ (l : List (Option ℚ)) (acc : Option ℚ) (m : ℚ),
    l.foldl hrmax_step acc = some m →
    (m ∈ acc.toList ++ l.filterMap id) ∧ ∀ w ∈ acc.toList ++ l.filterMap id, w ≤ m
  | [], acc, m => by
    intro h
    simp only [List.foldl_nil] at h
    subst h
    simp
  | none :: t, acc, m => by
    intro h
    simp only [List.foldl_cons, hrmax_step] at h
    simpa using hrmax_fold_max t acc m h
  | some x :: t, acc, m => by
    intro h
    simp only [List.foldl_cons] at h
    obtain ⟨hmem, hbd⟩ := hrmax_fold_max t (hrmax_step acc (some x)) m h
    cases acc with
    | none =>
      simp only [hrmax_step, Option.toList, List.nil_append, List.cons_append] at hmem hbd ⊢
      have he : (List.filterMap id (some x :: t)) = x :: List.filterMap id t := by simp
      rw [he]
      exact ⟨hmem, hbd⟩
    | some m0 =>
      simp only [hrmax_step, Option.toList, List.cons_append, List.nil_append] at hmem hbd ⊢
      have he : (List.filterMap id (some x :: t)) = x :: List.filterMap id t := by simp
      rw [he]
      have hmax : max m0 x ≤ m := hbd (max m0 x) (by simp)
      constructor
      · rcases List.mem_cons.1 hmem with hm | hm
        · rcases max_choice m0 x with hc | hc
          · exact List.mem_cons.2 (Or.inl (by rw [hm, hc]))
          · exact List.mem_cons.2 (Or.inr (List.mem_cons.2 (Or.inl (by rw [hm, hc]))))
        · exact List.mem_cons.2 (Or.inr (List.mem_cons.2 (Or.inr hm)))
      · intro w hw
        rcases List.mem_cons.1 hw with hw | hw
        · exact hw ▸ le_trans (le_max_left m0 x) hmax
        · rcases List.mem_cons.1 hw with hw | hw
          · exact hw ▸ le_trans (le_max_right m0 x) hmax
          · exact hbd w (List.mem_cons.2 (Or.inr hw))

/-- C9 (counterexample): one session with observed max heart rate 183.3.
The applied value is `int(round(183.3)) = 183`, not the observed maximum
183.3 itself, so the applied value is not "the maximum of the sessions'
observed max-heart-rate values". -/
theorem hrmax_used_round_cex :
    hrmax_used none [some (1833/10 : ℚ)] = 183 ∧
    ((183 : ℚ) ≠ (1833/10 : ℚ)) ∧
    [some (1833/10 : ℚ)].filterMap id = [(1833/10 : ℚ)] := by
  refine ⟨?_, by norm_num, by simp⟩
  norm_num [hrmax_used, hrmax_fallback, estimate_hrmax, hrmax_step, pyround]

/-- C9 (amended): with no explicit `hr_max`, the applied maximum heart rate
is the maximum of the sessions' observed max-heart-rate values rounded to
the nearest integer (Python `round`), falling back to 190 when no session
has one (or when the rounded maximum is 0, Python truthiness); an explicit
nonzero `hr_max` is applied unchanged; and `hrmax_used` is by construction
the value actually applied. -/
theorem hrmax_used_spec (maxhrs : List (Option ℚ)) :
    (estimate_hrmax maxhrs = none ↔ maxhrs.filterMap id = []) ∧
    (∀ e, estimate_hrmax maxhrs = some e →
       ∃ m, m ∈ maxhrs.filterMap id ∧ (∀ w ∈ maxhrs.filterMap id, w ≤ m) ∧
         e = pyround m) ∧
    (hrmax_used none maxhrs =
       match estimate_hrmax maxhrs with
       | some e => if e = 0 then 190 else e
       | none => 190) ∧
    (∀ hv : ℤ, hv ≠ 0 → hrmax_used (some hv) maxhrs = hv) := by
  refine ⟨?_, ?_, rfl, ?_⟩
  · rw [estimate_hrmax, Option.map_eq_none']
    rw [hrmax_fold_none maxhrs none]
    simp
  · intro e he
    rw [estimate_hrmax, Option.map_eq_some'] at he
    obtain ⟨m, hm, hpy⟩ := he
    obtain ⟨hmem, hbd⟩ := hrmax_fold_max maxhrs none m hm
    refine ⟨m, by simpa using hmem, fun w hw => hbd w (by simpa using hw), hpy.symm⟩
  · intro hv h
    simp [hrmax_used, h]

/-- Witness for C9: an explicit nonzero `hr_max = 5` is applied unchanged
even when a session observed 183 bpm. -/
theorem hrmax_used_spec_witness :
    (5 : ℤ) ≠ 0 ∧ hrmax_used (some 5) [some (183 : ℚ)] = 5 :=
  ⟨by norm_num, (hrmax_used_spec [some (183 : ℚ)]).2.2.2 5 (by norm_num)⟩

/-! ## C5: monotony and strain -/

/-- C5 (counterexample): daily TRIMP values [1,1,1,1,4,7,7,7,7] (mean 4,
sample standard deviation exactly 3, so `math.sqrt` is exact here and is
instantiated by a function returning 3 at 9) and weekly total 36: the code
reports monotony `round(4/3, 2) = 1.33`, not `mean/std = 4/3` as the claim
states. -/
theorem monotony_rounding_cex :
    monotony_strain [(1 : ℚ), 1, 1, 1, 4, 7, 7, 7, 7] 36
        (fun q => if q = 9 then 3 else 0) =
      some (133/100, round2 (36 * (133/100))) ∧
    daily_mean [(1 : ℚ), 1, 1, 1, 4, 7, 7, 7, 7] = 4 ∧
    sample_var [(1 : ℚ), 1, 1, 1, 4, 7, 7, 7, 7] = 9 ∧
    (fun q : ℚ => if q = 9 then (3 : ℚ) else 0) 9 = 3 ∧
    (133/100 : ℚ) ≠ 4/3 := by
  refine ⟨?_, by norm_num [daily_mean], ?_, by norm_num, by norm_num⟩
  · simp only [monotony_strain]
    rw [if_neg (by simp)]
    norm_num
    rw [round2]
    norm_num [pyround]
  · norm_num [sample_var, daily_mean]

/-- C5 (amended): monotony is `mean / s` with `s` the sample standard
deviation (divisor `n-1`, treated as 0 for a single day, divisor replaced
by 1.0 when not positive) *rounded to 2 decimals*, and strain is
`trimp_total * monotony` rounded to 2 decimals; both undefined exactly for
zero days; for a single day the standard deviation is 0, so monotony is
the day's mean divided by 1.0 (rounded to 2 decimals — the identity
whenever the daily value carries at most 2 decimals, as every value
produced by the daily bucketing does). -/
theorem monotony_strain_spec (daily : List ℚ) (tot : ℚ) (sqrtf : ℚ → ℚ) :
    (monotony_strain [] tot sqrtf = none) ∧
    (∀ v : ℚ, monotony_strain [v] tot sqrtf =
       some (round2 (v / 1), round2 (tot * round2 (v / 1)))) ∧
    (∀ w : ℚ, monotony_strain [round2 w] tot sqrtf =
       some (round2 w, round2 (tot * round2 w))) ∧
    (daily ≠ [] → 1 < daily.length →
       monotony_strain daily tot sqrtf =
         some (round2 (daily_mean daily /
             (if 0 < sqrtf (sample_var daily) then sqrtf (sample_var daily) else 1)),
           round2 (tot * round2 (daily_mean daily /
             (if 0 < sqrtf (sample_var daily) then sqrtf (sample_var daily) else 1))))) := by
  have single : ∀ v : ℚ, monotony_strain [v] tot sqrtf =
      some (round2 (v / 1), round2 (tot * round2 (v / 1))) := by
    intro v
    simp only [monotony_strain]
    rw [if_neg (by simp)]
    norm_num
  have round2_idem : ∀ w : ℚ, round2 (round2 w) = round2 w := by
    intro w
    show (pyround (100 * ((pyround (100 * w) : ℚ) / 100)) : ℚ) / 100 = _
    have h1 : (100 : ℚ) * ((pyround (100 * w) : ℚ) / 100) = (pyround (100 * w) : ℚ) := by
      field_simp
    rw [h1]
    have h2 : ∀ n : ℤ, pyround (n : ℚ) = n := by
      intro n
      simp [pyround, Int.floor_intCast]
    rw [h2]
    rfl
  refine ⟨by simp [monotony_strain], single, ?_, ?_⟩
  · intro w
    rw [single (round2 w)]
    rw [div_one, round2_idem]
  · intro hne hlen
    simp only [monotony_strain, daily_mean, sample_var]
    rw [if_neg hne, if_pos hlen]

/-- Witness for C5: daily values [0, 2, 4] (mean 2, sample standard
deviation exactly 2), weekly total 6: monotony `round(2/2, 2) = 1`, strain
`round(6*1, 2) = 6`. -/
theorem monotony_strain_spec_witness :
    ([(0 : ℚ), 2, 4] ≠ []) ∧ 1 < [(0 : ℚ), 2, 4].length ∧
    monotony_strain [(0 : ℚ), 2, 4] 6 (fun q => if q = 4 then 2 else 0) =
      some (1, 6) := by
  refine ⟨by simp, by simp, ?_⟩
  rw [(monotony_strain_spec [(0 : ℚ), 2, 4] 6
    (fun q => if q = 4 then 2 else 0)).2.2.2 (by simp) (by simp)]
  have hv : sample_var [(0 : ℚ), 2, 4] = 4 := by
    norm_num [sample_var, daily_mean]
  have hm : daily_mean [(0 : ℚ), 2, 4] = 2 := by
    norm_num [daily_mean]
  rw [hv, hm]
  norm_num
  constructor
  · rw [round2]
    norm_num [pyround]
  · rw [round2]
    norm_num [pyround]
    rw [round2]
    norm_num [pyround]

/-! ## C8: weekly TRIMP total and daily buckets -/

/-- The first component of the weekly TRIMP fold is the plain running sum
of the sessions' TRIMPs, whatever the start state. -/
theorem weekly_trimp_fold_fst : ∀ (ss : List (Option String × ℚ)) (acc : ℚ × (String → ℚ)),
    (ss.foldl weekly_trimp_step acc).1 = acc.1 + (ss.map Prod.snd).sum
  | [], acc => by simp
  | s :: t, acc => by
    rw [List.foldl_cons, weekly_trimp_fold_fst t]
    simp [weekly_trimp_step]
    ring

/-- C8: the weekly TRIMP accumulator equals the sum of the sessions' TRIMP
scores; appending a session adds its TRIMP to exactly the daily bucket
keyed by the first 10 characters of its local start timestamp (the running
bucket value is rounded to 2 decimals after each addition, as the code
does), missing timestamps bucketing under the literal "unknown"; and on
the spec's example — two sessions on 2025-08-11 with TRIMP 50 and 70 —
the daily bucket holds 120 and the weekly total is 120 (reported as 120.0
after the output rounding to 1 decimal). -/
theorem weekly_trimp_aggregation (sessions : List (Option String × ℚ))
    (d : Option String) (t : ℚ) :
    ((weekly_trimp_fold sessions).1 = (sessions.map Prod.snd).sum) ∧
    ((weekly_trimp_fold (sessions ++ [(d, t)])).2 (day_key d) =
       round2 ((weekly_trimp_fold sessions).2 (day_key d) + t)) ∧
    (∀ k, k ≠ day_key d →
       (weekly_trimp_fold (sessions ++ [(d, t)])).2 k =
         (weekly_trimp_fold sessions).2 k) ∧
    (day_key none = "unknown") ∧
    (day_key (some "") = "unknown") ∧
    (day_key (some "2025-08-11T07:11:00Z") = "2025-08-11") ∧
    ((weekly_trimp_fold
        [(some "2025-08-11T07:11:00Z", 50), (some "2025-08-11T18:30:00Z", 70)]).1 = 120 ∧
     (weekly_trimp_fold
        [(some "2025-08-11T07:11:00Z", 50), (some "2025-08-11T18:30:00Z", 70)]).2
          "2025-08-11" = 120 ∧
     round1 120 = 120) := by
  have hd1 : day_key (some "2025-08-11T07:11:00Z") = "2025-08-11" := rfl
  have hd2 : day_key (some "2025-08-11T18:30:00Z") = "2025-08-11" := rfl
  refine ⟨?_, ?_, ?_, rfl, rfl, hd1, ?_, ?_, ?_⟩
  · rw [weekly_trimp_fold, weekly_trimp_fold_fst]
    simp
  · rw [weekly_trimp_fold, weekly_trimp_fold, List.foldl_append]
    simp only [List.foldl_cons, List.foldl_nil, weekly_trimp_step, if_true]
  · intro k hk
    rw [weekly_trimp_fold, weekly_trimp_fold, List.foldl_append]
    simp only [List.foldl_cons, List.foldl_nil, weekly_trimp_step]
    rw [if_neg hk]
  · rw [weekly_trimp_fold, weekly_trimp_fold_fst]
    norm_num
  · simp only [weekly_trimp_fold, List.foldl_cons, List.foldl_nil, weekly_trimp_step,
      hd1, hd2, if_true]
    rw [round2, round2]
    norm_num [pyround]
  · rw [round1]
    norm_num [pyround]

/-- Witness for C8: appending a session with no timestamp leaves the
bucket of an unrelated day untouched. -/
theorem weekly_trimp_aggregation_witness :
    ("2025-08-11" ≠ day_key none) ∧
    (weekly_trimp_fold ([] ++ [(none, (5 : ℚ))])).2 "2025-08-11" =
      (weekly_trimp_fold []).2 "2025-08-11" :=
  ⟨by decide, (weekly_trimp_aggregation [] none 5).2.2.1 "2025-08-11" (by decide)⟩

/-! ## C10: weekly vs per-type time-in-zone consistency -/

/-- Folding the per-session zone addition over any accumulator adds, per
key, the sum of that key's per-session time-in-zone values. -/
theorem weekly_zone_fold_general :
    ∀ (ss : List (String × List (String × ℤ))) (init : List (String × ℤ)),
    ss.foldl weekly_zone_step init =
      init.map (fun p => (p.1, p.2 + (ss.map (fun s => ((s.2.lookup p.1).getD 0))).sum))
  | [], init => by simp
  | s :: t, init => by
    rw [List.foldl_cons, weekly_zone_fold_general t (weekly_zone_step init s)]
    rw [weekly_zone_step, List.map_map]
    apply List.map_congr_left
    intro p _
    simp only [Function.comp_apply, List.map_cons, List.sum_cons]
    exact Prod.ext rfl (by ring)

/-- Looking up a key of a label-indexed table built by mapping over the
label list. -/
theorem lookup_label_map : ∀ (labels : List String) (f : String → ℤ) (z : String),
    z ∈ labels → (labels.map (fun l => (l, f l))).lookup z = some (f z)
  | [], _, _, h => by simp at h
  | l :: t, f, z, h => by
    by_cases hl : l = z
    · subst hl
      simp [List.lookup]
    · have hz : z ∈ t := by
        rcases List.mem_cons.1 h with h1 | h1
        · exact absurd h1.symm hl
        · exact h1
      have hbeq : (z == l) = false := beq_eq_false_iff_ne.2 (fun hc => hl hc.symm)
      simp only [List.map_cons, List.lookup, hbeq]
      exact lookup_label_map t f z hz

/-- Summing a function of the sessions fiberwise over the distinct sport
types equals summing it over all sessions. -/
theorem grouped_sum {α : Type} (ss : List (String × α)) (f : String × α → ℤ) :
    ∑ t in (ss.map Prod.fst).toFinset,
        ((ss.filter (fun s => s.1 = t)).map f).sum = (ss.map f).sum := by
  induction ss with
  | nil => simp
  | cons s tl ih =>
    have hsummand : ∀ t : String,
        (((s :: tl).filter (fun x => x.1 = t)).map f).sum =
          (if s.1 = t then f s else 0) +
            ((tl.filter (fun x => x.1 = t)).map f).sum := by
      intro t
      by_cases hs : s.1 = t
      · simp [List.filter_cons, hs]
      · simp [List.filter_cons, hs]
    simp only [List.map_cons, List.toFinset_cons, List.sum_cons]
    rw [Finset.sum_congr rfl (fun t _ => hsummand t), Finset.sum_add_distrib]
    have h1 : ∑ t in insert s.1 (tl.map Prod.fst).toFinset,
        (if s.1 = t then f s else 0) = f s := by
      rw [Finset.sum_ite_eq]
      simp
    have h2 : ∑ t in insert s.1 (tl.map Prod.fst).toFinset,
        ((tl.filter (fun x => x.1 = t)).map f).sum =
        ∑ t in (tl.map Prod.fst).toFinset,
          ((tl.filter (fun x => x.1 = t)).map f).sum := by
      apply Finset.sum_insert_of_eq_zero_if_not_mem
      intro hnot
      have hfil : tl.filter (fun x => x.1 = s.1) = [] := by
        apply List.filter_eq_nil_iff.2
        intro x hx
        simp only [decide_eq_true_eq]
        intro hcontra
        exact hnot (by
          rw [List.mem_toFinset]
          exact List.mem_map.2 ⟨x, hx, hcontra⟩)
      rw [hfil]
      simp
    rw [h1, h2, ih]

/-- C10: for each zone label, the weekly `time_in_zones_s` accumulator
equals the sum of the per-session time-in-zone values for that label, and
summing the `by_type` accumulators over the distinct sport types gives the
same value — the weekly summary and the per-type breakdown are consistent. -/
theorem weekly_by_type_tiz_consistent (labels : List String)
    (sessions : List (String × List (String × ℤ))) (z : String) (hz : z ∈ labels) :
    ((weekly_zone_fold labels sessions).lookup z).getD 0 =
      (sessions.map (fun s => ((s.2.lookup z).getD 0))).sum ∧
    ∑ t in (sessions.map Prod.fst).toFinset,
        ((by_type_zone labels sessions t).lookup z).getD 0 =
      (sessions.map (fun s => ((s.2.lookup z).getD 0))).sum := by
  have hfold : ∀ ss : List (String × List (String × ℤ)),
      ((weekly_zone_fold labels ss).lookup z).getD 0 =
        (ss.map (fun s => ((s.2.lookup z).getD 0))).sum := by
    intro ss
    rw [weekly_zone_fold, weekly_zone_fold_general, List.map_map]
    have : (labels.map ((fun p : String × ℤ =>
        (p.1, p.2 + (ss.map (fun s => ((s.2.lookup p.1).getD 0))).sum)) ∘
          (fun z => (z, 0)))).lookup z =
        some ((fun l => 0 + (ss.map (fun s => ((s.2.lookup l).getD 0))).sum) z) :=
      lookup_label_map labels _ z hz
    rw [this]
    simp
  refine ⟨hfold sessions, ?_⟩
  calc ∑ t in (sessions.map Prod.fst).toFinset,
        ((by_type_zone labels sessions t).lookup z).getD 0
      = ∑ t in (sessions.map Prod.fst).toFinset,
          ((sessions.filter (fun s => s.1 = t)).map
            (fun s => ((s.2.lookup z).getD 0))).sum :=
        Finset.sum_congr rfl (fun t _ => hfold _)
    _ = (sessions.map (fun s => ((s.2.lookup z).getD 0))).sum :=
        grouped_sum sessions _

/-- Witness for C10 at the five percent_max labels and two concrete
sessions of different sport types. -/
theorem weekly_by_type_tiz_consistent_witness :
    ("Z2" ∈ ["Z1", "Z2", "Z3", "Z4", "Z5"]) ∧
    (((weekly_zone_fold ["Z1", "Z2", "Z3", "Z4", "Z5"]
        [("Run", [("Z1", 10), ("Z2", 20)]), ("Ride", [("Z2", 5)])]).lookup "Z2").getD 0 =
      ([("Run", [("Z1", (10 : ℤ)), ("Z2", 20)]), ("Ride", [("Z2", 5)])].map
        (fun s => ((s.2.lookup "Z2").getD 0))).sum ∧
     ∑ t in ([("Run", [("Z1", (10 : ℤ)), ("Z2", 20)]), ("Ride", [("Z2", 5)])].map
          Prod.fst).toFinset,
        ((by_type_zone ["Z1", "Z2", "Z3", "Z4", "Z5"]
          [("Run", [("Z1", 10), ("Z2", 20)]), ("Ride", [("Z2", 5)])] t).lookup "Z2").getD 0 =
      ([("Run", [("Z1", (10 : ℤ)), ("Z2", 20)]), ("Ride", [("Z2", 5)])].map
        (fun s => ((s.2.lookup "Z2").getD 0))).sum) :=
  ⟨by decide,
   weekly_by_type_tiz_consistent ["Z1", "Z2", "Z3", "Z4", "Z5"]
     [("Run", [("Z1", 10), ("Z2", 20)]), ("Ride", [("Z2", 5)])] "Z2" (by decide)⟩

/-! ## C2: the time-in-zone estimator and its dispatch -/

/-- Setting index `i` of an integer list changes the sum by the difference
with the old entry. -/
theorem sum_set_general : ∀ (cs : List ℤ) (i : ℕ) (a : ℤ), i < cs.length →
    (cs.set i a).sum = cs.sum + a - cs.getD i 0
  | [], i, a, h => by simp at h
  | c :: t, 0, a, _ => by
    simp only [List.set_cons_zero, List.sum_cons, List.getD_cons_zero]
    ring
  | c :: t, i + 1, a, h => by
    simp only [List.set_cons_succ, List.sum_cons, List.getD_cons_succ]
    rw [sum_set_general t i a (by simpa using h)]
    ring

/-- Setting an entry to the value it already holds (as read with any
default) leaves the list unchanged. -/
theorem set_getD_self {α : Type} : ∀ (l : List α) (i : ℕ) (d : α),
    l.set i (l.getD i d) = l
  | [], _, _ => by simp
  | a :: t, 0, d => by simp
  | a :: t, i + 1, d => by
    simp only [List.set_cons_succ, List.getD_cons_succ]
    rw [set_getD_self t i d]

/-- The zone index is always a valid index of a non-empty zone list. -/
theorem zone_index_lt (bpm : ℤ) (zones : List (String × ℤ × Option ℤ))
    (h : zones ≠ []) : zone_index bpm zones < zones.length := by
  rw [zone_index]
  by_cases hf : zones.findIdx (fun z => zone_contains z bpm) < zones.length
  · simp [hf]
  · simp only [hf, if_false]
    exact List.length_pos.2 h

/-- When some zone contains the value, the zone at the returned index
contains it (the loop returns the first match). -/
theorem zone_index_mem (bpm : ℤ) (zones : List (String × ℤ × Option ℤ))
    (h : ∃ i, zoneMem zones i bpm = true) :
    zoneMem zones (zone_index bpm zones) bpm = true := by
  obtain ⟨i, hi⟩ := h
  rw [zoneMem] at hi
  rcases hg : zones.get? i with _ | z
  · rw [hg] at hi; simp at hi
  · rw [hg] at hi
    have hmem : z ∈ zones := List.get?_mem hg
    have hlt : zones.findIdx (fun z => zone_contains z bpm) < zones.length :=
      List.findIdx_lt_length_of_exists ⟨z, hmem, hi⟩
    rw [zone_index]
    simp only [hlt, if_true, if_pos hlt]
    have hfind := @List.findIdx_getElem _ (fun z => zone_contains z bpm) zones hlt
    rw [zoneMem, List.get?_eq_get hlt]
    exact hfind

/-- The counting fold preserves the length of the counts list. -/
theorem tiz_counts_length : ∀ (l : List (Option ℤ)) (cs : List ℤ)
    (zones : List (String × ℤ × Option ℤ)) (step : ℤ),
    (l.foldl (tiz_count_step zones step) cs).length = cs.length
  | [], _, _, _ => rfl
  | none :: t, cs, zones, step => by
    simpa [tiz_count_step] using tiz_counts_length t cs zones step
  | some b :: t, cs, zones, step => by
    rw [List.foldl_cons]
    rw [tiz_counts_length t _ zones step]
    simp [tiz_count_step]

/-- The counting fold adds `step` per non-null sample to the total. -/
theorem tiz_counts_sum : ∀ (l : List (Option ℤ)) (cs : List ℤ)
    (zones : List (String × ℤ × Option ℤ)) (step : ℤ),
    zones ≠ [] → cs.length = zones.length →
    (l.foldl (tiz_count_step zones step) cs).sum =
      cs.sum + step * ((l.filterMap id).length : ℤ)
  | [], cs, zones, step, _, _ => by simp
  | none :: t, cs, zones, step, hz, hlen => by
    rw [List.foldl_cons]
    show ((t.foldl (tiz_count_step zones step) (tiz_count_step zones step cs none)).sum = _)
    rw [tiz_count_step]
    rw [tiz_counts_sum t cs zones step hz hlen]
    simp
  | some b :: t, cs, zones, step, hz, hlen => by
    rw [List.foldl_cons]
    have hset : (tiz_count_step zones step cs (some b)).length = zones.length := by
      simp [tiz_count_step, hlen]
    rw [tiz_counts_sum t _ zones step hz hset]
    rw [tiz_count_step]
    have hidx : zone_index b zones < cs.length := hlen ▸ zone_index_lt b zones hz
    rw [sum_set_general cs (zone_index b zones) _ hidx]
    simp only [List.filterMap_cons, id, List.length_cons]
    push_cast
    ring

/-- The stream-credibility test, spelled out. -/
theorem stream_credible_iff (hr_stream : Option (List (Option ℤ))) (duration_s : ℤ) :
    stream_credible hr_stream duration_s = true ↔
      ∃ l, hr_stream = some l ∧ l ≠ [] ∧
        max 10 (Int.ediv duration_s 6) ≤ (l.length : ℤ) := by
  cases hr_stream with
  | none => simp [stream_credible]
  | some l =>
    show (!l.isEmpty && decide (max 10 (Int.ediv duration_s 6) ≤ (l.length : ℤ))) = true ↔ _
    simp [List.isEmpty_iff]

theorem getD_set_self {α : Type} : ∀ (l : List α) (i : ℕ) (a d : α),
    i < l.length → (l.set i a).getD i d = a
  | [], i, _, _, h => by simp at h
  | x :: t, 0, a, d, _ => by simp
  | x :: t, i + 1, a, d, h => by
    simp only [List.set_cons_succ, List.getD_cons_succ]
    exact getD_set_self t i a d (by simpa using h)

theorem getD_map_zero {α : Type} : ∀ (l : List α) (i : ℕ),
    (l.map (fun _ => (0 : ℤ))).getD i 0 = 0
  | [], i => by simp
  | x :: t, 0 => by simp
  | x :: t, i + 1 => by
    simp only [List.map_cons, List.getD_cons_succ]
    exact getD_map_zero t i

/-- The stream-based estimator keys its output by exactly the zone labels,
in order. -/
theorem tiz_streams_labels (l : List (Option ℤ))
    (zones : List (String × ℤ × Option ℤ)) (sampling : Option ℤ) :
    (time_in_zones_from_streams l zones sampling).map Prod.fst =
      zones.map (fun z => z.1) := by
  simp only [time_in_zones_from_streams]
  by_cases he : l.isEmpty
  · rw [if_pos he, List.map_map]
    rfl
  · rw [if_neg he]
    apply List.map_fst_zip
    rw [tiz_counts_length]
    simp

/-- The average-based estimator keys its output by exactly the zone
labels, in order. -/
theorem tiz_avg_labels (avg_hr : Option ℚ) (duration_s : ℤ)
    (zones : List (String × ℤ × Option ℤ)) :
    (time_in_zones_from_avg avg_hr duration_s zones).map Prod.fst =
      zones.map (fun z => z.1) := by
  cases avg_hr with
  | none =>
    simp only [time_in_zones_from_avg, List.map_map]
    rfl
  | some a =>
    simp only [time_in_zones_from_avg]
    by_cases hg : a = 0 ∨ duration_s ≤ 0
    · rw [if_pos hg, List.map_map]
      rfl
    · rw [if_neg hg, List.map_set, List.map_map]
      have hco : zones.map (Prod.fst ∘ fun z => (z.1, (0 : ℤ))) =
          zones.map (fun z => z.1) := rfl
      rw [hco]
      exact set_getD_self _ _ _

/-- Stream case: with the default 1-second step, the output values sum to
the number of non-null samples. -/
theorem tiz_streams_sum (l : List (Option ℤ)) (zones : List (String × ℤ × Option ℤ))
    (hz : zones ≠ []) (hl : ¬ l.isEmpty) :
    ((time_in_zones_from_streams l zones none).map Prod.snd).sum =
      ((l.filterMap id).length : ℤ) := by
  simp only [time_in_zones_from_streams]
  rw [if_neg hl]
  have hlen : (l.foldl (tiz_count_step zones 1) (List.replicate zones.length 0)).length =
      zones.length := by
    rw [tiz_counts_length]; simp
  rw [List.map_snd_zip _ _ (by simp [hlen])]
  rw [tiz_counts_sum l _ zones 1 hz (by simp)]
  simp

/-- Average case: the whole duration is attributed (the output sums to the
duration). -/
theorem tiz_avg_sum (a : ℚ) (duration_s : ℤ) (zones : List (String × ℤ × Option ℤ))
    (hz : zones ≠ []) (ha : a ≠ 0) (hd : 0 < duration_s) :
    ((time_in_zones_from_avg (some a) duration_s zones).map Prod.snd).sum =
      duration_s := by
  simp only [time_in_zones_from_avg]
  rw [if_neg (by push_neg; exact ⟨ha, by omega⟩)]
  rw [List.map_set, List.map_map]
  have hco : zones.map (Prod.snd ∘ fun z => (z.1, (0 : ℤ))) =
      zones.map (fun _ => (0 : ℤ)) := rfl
  rw [hco]
  have hidx : zone_index (pyround a) zones < (zones.map (fun _ => (0 : ℤ))).length := by
    simpa using zone_index_lt (pyround a) zones hz
  rw [sum_set_general _ _ _ hidx]
  rw [getD_map_zero]
  have hzero : (zones.map (fun _ => (0 : ℤ))).sum = 0 := by
    induction zones with
    | nil => rfl
    | cons z t ih => simp [ih]
  rw [hzero]
  ring

/-- C2 (amended): the per-session time-in-zone estimator uses per-sample
stream classification (1 second of credit per sample, null samples
ignored) exactly when a heart-rate stream is present and
`len(stream) ≥ max(10, duration_s // 6)`; otherwise, when an average heart
rate is known (nonzero) and the duration positive, it assigns the entire
duration to the zone selected for the average rounded to the nearest
integer (Python `round`) — the unique containing zone whenever one
contains that rounded value; when neither is available every zone maps
to 0.  In all cases the output has exactly the zone labels, and its values
sum to the number of non-null samples (hence at most the stream length) in
the stream case, to exactly the duration in the average case, and to 0
with no data. -/
theorem session_tiz_spec (zones : List (String × ℤ × Option ℤ)) (hzones : zones ≠ [])
    (hr_stream : Option (List (Option ℤ))) (avg_hr : Option ℚ) (duration_s : ℤ) :
    (stream_credible hr_stream duration_s = true ↔
       ∃ l, hr_stream = some l ∧ l ≠ [] ∧
         max 10 (Int.ediv duration_s 6) ≤ (l.length : ℤ)) ∧
    (stream_credible hr_stream duration_s = true →
       session_tiz hr_stream avg_hr duration_s zones =
         time_in_zones_from_streams (hr_stream.getD []) zones none) ∧
    (stream_credible hr_stream duration_s = false →
       session_tiz hr_stream avg_hr duration_s zones =
         time_in_zones_from_avg avg_hr duration_s zones) ∧
    ((session_tiz hr_stream avg_hr duration_s zones).map Prod.fst =
       zones.map (fun z => z.1)) ∧
    (∀ l, hr_stream = some l → stream_credible hr_stream duration_s = true →
       ((session_tiz hr_stream avg_hr duration_s zones).map Prod.snd).sum =
         ((l.filterMap id).length : ℤ) ∧
       ((session_tiz hr_stream avg_hr duration_s zones).map Prod.snd).sum ≤
         (l.length : ℤ)) ∧
    (stream_credible hr_stream duration_s = false →
       ∀ a, avg_hr = some a → a ≠ 0 → 0 < duration_s →
         ((session_tiz hr_stream avg_hr duration_s zones).map Prod.snd).sum =
           duration_s ∧
         (session_tiz hr_stream avg_hr duration_s zones).getD
             (zone_index (pyround a) zones) ("", 0) =
           ((zones.map (fun z => z.1)).getD (zone_index (pyround a) zones) "",
             duration_s) ∧
         ((∃ i, zoneMem zones i (pyround a) = true) →
            zoneMem zones (zone_index (pyround a) zones) (pyround a) = true)) ∧
    (stream_credible hr_stream duration_s = false →
       (avg_hr = none ∨ avg_hr = some 0 ∨ duration_s ≤ 0) →
       ∀ p ∈ session_tiz hr_stream avg_hr duration_s zones, p.2 = 0) := by
  refine ⟨stream_credible_iff hr_stream duration_s, ?_, ?_, ?_, ?_, ?_, ?_⟩
  · intro h
    rw [session_tiz, if_pos h]
  · intro h
    rw [session_tiz, if_neg (by rw [h]; exact Bool.false_ne_true)]
  · by_cases h : stream_credible hr_stream duration_s = true
    · rw [session_tiz, if_pos h]
      exact tiz_streams_labels _ zones none
    · rw [session_tiz, if_neg h]
      exact tiz_avg_labels avg_hr duration_s zones
  · intro l hl hc
    have hne : ¬ l.isEmpty := by
      obtain ⟨l2, hl2, hl2ne, _⟩ := (stream_credible_iff hr_stream duration_s).1 hc
      rw [hl] at hl2
      injection hl2 with hl2
      subst hl2
      simpa [List.isEmpty_iff] using hl2ne
    rw [session_tiz, if_pos hc, hl]
    have hsum := tiz_streams_sum l zones hzones hne
    simp only [Option.getD_some]
    refine ⟨hsum, ?_⟩
    rw [hsum]
    have := List.length_filterMap_le id l
    exact_mod_cast this
  · intro hc a ha hane hdpos
    rw [session_tiz, if_neg (by rw [hc]; exact Bool.false_ne_true), ha]
    refine ⟨tiz_avg_sum a duration_s zones hzones hane hdpos, ?_, ?_⟩
    · simp only [time_in_zones_from_avg]
      rw [if_neg (by push_neg; exact ⟨hane, by omega⟩)]
      apply getD_set_self
      simpa using zone_index_lt (pyround a) zones hzones
    · exact zone_index_mem (pyround a) zones
  · intro hc hdata p hp
    rw [session_tiz, if_neg (by rw [hc]; exact Bool.false_ne_true)] at hp
    have hout : ∀ q ∈ zones.map (fun z => (z.1, (0 : ℤ))), q.2 = (0 : ℤ) := by
      intro q hq
      obtain ⟨z, _, rfl⟩ := List.mem_map.1 hq
      rfl
    rcases hdata with hnone | hzero | hdle
    · rw [hnone] at hp
      exact hout p hp
    · rw [hzero] at hp
      simp only [time_in_zones_from_avg] at hp
      rw [if_pos (Or.inl trivial)] at hp
      exact hout p hp
    · cases avg_hr with
      | none => exact hout p (by simpa [time_in_zones_from_avg] using hp)
      | some a =>
        simp only [time_in_zones_from_avg] at hp
        rw [if_pos (Or.inr hdle)] at hp
        exact hout p hp

/-- Witness for C2: with no stream, average 150 bpm and 100 s duration on
the percent_max(200) zones, the entire duration is attributed. -/
theorem session_tiz_spec_witness :
    (zones_percent_max 200 ≠ []) ∧
    stream_credible none 100 = false ∧
    ((session_tiz none (some 150) 100 (zones_percent_max 200)).map Prod.snd).sum =
      100 :=
  ⟨by simp [zones_percent_max], rfl,
   ((session_tiz_spec (zones_percent_max 200) (by simp [zones_percent_max]) none
       (some 150) 100).2.2.2.2.2.1 rfl 150 rfl (by norm_num) (by norm_num)).1⟩

/-- C2 (counterexample): with no stream, average 119.6 bpm, duration 100 s
and the percent_max(200) zones, the entire duration is assigned to Z2
(because `round(119.6) = 120`), although the unique zone containing the
average 119.6 itself is Z1 = [0, 120): the duration does not go to "the
single zone containing the average". -/
theorem session_tiz_avg_zone_cex :
    (session_tiz none (some (598/5 : ℚ)) 100 (zones_percent_max 200)).lookup "Z2" =
      some 100 ∧
    (session_tiz none (some (598/5 : ℚ)) 100 (zones_percent_max 200)).lookup "Z1" =
      some 0 ∧
    zoneMemQ (zones_percent_max 200) 0 (598/5 : ℚ) = true ∧
    zoneMemQ (zones_percent_max 200) 1 (598/5 : ℚ) = false ∧
    ((zones_percent_max 200).map (fun z => z.1)).get? 0 = some "Z1" ∧
    ((zones_percent_max 200).map (fun z => z.1)).get? 1 = some "Z2" := by
  have h200 : zones_percent_max 200 =
      [("Z1", 0, some 120), ("Z2", 120, some 140), ("Z3", 140, some 160),
       ("Z4", 160, some 180), ("Z5", 180, none)] := by
    norm_num [zones_percent_max]
  have hpy : pyround (598/5 : ℚ) = 120 := by norm_num [pyround]
  have hsession : session_tiz none (some (598/5 : ℚ)) 100 (zones_percent_max 200) =
      [("Z1", 0), ("Z2", 100), ("Z3", 0), ("Z4", 0), ("Z5", 0)] := by
    rw [session_tiz, if_neg (by exact Bool.false_ne_true)]
    simp only [time_in_zones_from_avg]
    rw [if_neg (by norm_num)]
    rw [hpy, h200]
    decide
  refine ⟨?_, ?_, ?_, ?_, ?_, ?_⟩
  · rw [hsession]; decide
  · rw [hsession]; decide
  · rw [h200]
    show zone_containsQ ("Z1", 0, some 120) (598/5 : ℚ) = true
    rw [zone_containsQ]
    norm_num
  · rw [h200]
    show zone_containsQ ("Z2", 120, some 140) (598/5 : ℚ) = false
    rw [zone_containsQ]
    norm_num
  · rw [h200]; decide
  · rw [h200]; decide

/-! ## C6: well-formedness of the zone partitions -/

/-- Integer-arithmetic evaluator for `pyround` at a rational with
denominator 10: used to reason about the karvonen boundaries. -/
def pyround_tenths (m : ℤ) : ℤ :=
  if m % 10 < 5 then m / 10
  else if 5 < m % 10 then m / 10 + 1
  else if (m / 10) % 2 = 0 then m / 10 else m / 10 + 1

theorem pyround_div_ten (m : ℤ) : pyround ((m : ℚ) / 10) = pyround_tenths m := by
  have hfloor : ⌊(m : ℚ)/10⌋ = m / 10 := by
    rw [show ((m : ℚ)/10) = ((m : ℤ) : ℚ)/((10 : ℕ) : ℚ) by norm_num]
    exact Rat.floor_intCast_div_natCast _ _
  have hm : 10 * (m / 10) + m % 10 = m := Int.ediv_add_emod m 10
  have hmq : ((10 : ℤ) : ℚ) * ((m / 10 : ℤ) : ℚ) + ((m % 10 : ℤ) : ℚ) = (m : ℚ) := by
    exact_mod_cast congrArg (fun z : ℤ => (z : ℚ)) hm
  have hfrac : (m : ℚ)/10 - ((m / 10 : ℤ) : ℚ) = ((m % 10 : ℤ) : ℚ)/10 := by
    field_simp
    push_cast at hmq ⊢
    linarith
  have c1 : (((m % 10 : ℤ) : ℚ)/10 < 1/2) ↔ m % 10 < 5 := by
    constructor
    · intro hlt
      have hq : ((m % 10 : ℤ) : ℚ) < ((5 : ℤ) : ℚ) := by push_cast; linarith
      exact_mod_cast hq
    · intro hlt
      have hq : ((m % 10 : ℤ) : ℚ) < ((5 : ℤ) : ℚ) := by exact_mod_cast hlt
      push_cast at hq
      linarith
  have c2 : ((1 : ℚ)/2 < ((m % 10 : ℤ) : ℚ)/10) ↔ 5 < m % 10 := by
    constructor
    · intro hlt
      have hq : ((5 : ℤ) : ℚ) < ((m % 10 : ℤ) : ℚ) := by push_cast; linarith
      exact_mod_cast hq
    · intro hlt
      have hq : ((5 : ℤ) : ℚ) < ((m % 10 : ℤ) : ℚ) := by exact_mod_cast hlt
      push_cast at hq
      linarith
  simp only [pyround]
  rw [hfloor, hfrac]
  simp only [c1, c2]
  rfl

theorem pyround_tenths_bounds (m : ℤ) :
    m / 10 ≤ pyround_tenths m ∧ pyround_tenths m ≤ m / 10 + 1 := by
  simp only [pyround_tenths]
  split_ifs <;> omega

theorem pyround_tenths_lt_of_gap (m1 m2 : ℤ) (h : m1 / 10 + 1 < m2 / 10) :
    pyround_tenths m1 < pyround_tenths m2 := by
  have h1 := pyround_tenths_bounds m1
  have h2 := pyround_tenths_bounds m2
  omega

theorem kv_step67 (r d : ℤ) (hd : 9 ≤ d) :
    pyround_tenths (10*r + 6*d) < pyround_tenths (10*r + 7*d) := by
  by_cases h20 : d ≤ 19
  · interval_cases d <;> (simp only [pyround_tenths]; split_ifs <;> omega)
  · exact pyround_tenths_lt_of_gap _ _ (by omega)

theorem kv_step78 (r d : ℤ) (hd : 9 ≤ d) :
    pyround_tenths (10*r + 7*d) < pyround_tenths (10*r + 8*d) := by
  by_cases h20 : d ≤ 19
  · interval_cases d <;> (simp only [pyround_tenths]; split_ifs <;> omega)
  · exact pyround_tenths_lt_of_gap _ _ (by omega)

theorem kv_step89 (r d : ℤ) (hd : 9 ≤ d) :
    pyround_tenths (10*r + 8*d) < pyround_tenths (10*r + 9*d) := by
  by_cases h20 : d ≤ 19
  · interval_cases d <;> (simp only [pyround_tenths]; split_ifs <;> omega)
  · exact pyround_tenths_lt_of_gap _ _ (by omega)

theorem pm_b6 (h : ℤ) : ⌊(0.60 : ℚ) * h⌋ = (6*h) / 10 := by
  rw [show (0.60 : ℚ) * (h : ℚ) = ((6*h : ℤ) : ℚ)/((10 : ℕ) : ℚ) by push_cast; ring]
  exact Rat.floor_intCast_div_natCast _ _

theorem pm_b7 (h : ℤ) : ⌊(0.70 : ℚ) * h⌋ = (7*h) / 10 := by
  rw [show (0.70 : ℚ) * (h : ℚ) = ((7*h : ℤ) : ℚ)/((10 : ℕ) : ℚ) by push_cast; ring]
  exact Rat.floor_intCast_div_natCast _ _

theorem pm_b8 (h : ℤ) : ⌊(0.80 : ℚ) * h⌋ = (8*h) / 10 := by
  rw [show (0.80 : ℚ) * (h : ℚ) = ((8*h : ℤ) : ℚ)/((10 : ℕ) : ℚ) by push_cast; ring]
  exact Rat.floor_intCast_div_natCast _ _

theorem pm_b9 (h : ℤ) : ⌊(0.90 : ℚ) * h⌋ = (9*h) / 10 := by
  rw [show (0.90 : ℚ) * (h : ℚ) = ((9*h : ℤ) : ℚ)/((10 : ℕ) : ℚ) by push_cast; ring]
  exact Rat.floor_intCast_div_natCast _ _

theorem kv_b6 (h r : ℤ) : karvonen_bpm h r 0.60 = pyround_tenths (10*r + 6*(h - r)) := by
  rw [karvonen_bpm, show (r : ℚ) + (0.60 : ℚ) * ((h : ℚ) - (r : ℚ)) =
    ((10*r + 6*(h - r) : ℤ) : ℚ)/10 by push_cast; ring]
  exact pyround_div_ten _

theorem kv_b7 (h r : ℤ) : karvonen_bpm h r 0.70 = pyround_tenths (10*r + 7*(h - r)) := by
  rw [karvonen_bpm, show (r : ℚ) + (0.70 : ℚ) * ((h : ℚ) - (r : ℚ)) =
    ((10*r + 7*(h - r) : ℤ) : ℚ)/10 by push_cast; ring]
  exact pyround_div_ten _

theorem kv_b8 (h r : ℤ) : karvonen_bpm h r 0.80 = pyround_tenths (10*r + 8*(h - r)) := by
  rw [karvonen_bpm, show (r : ℚ) + (0.80 : ℚ) * ((h : ℚ) - (r : ℚ)) =
    ((10*r + 8*(h - r) : ℤ) : ℚ)/10 by push_cast; ring]
  exact pyround_div_ten _

theorem kv_b9 (h r : ℤ) : karvonen_bpm h r 0.90 = pyround_tenths (10*r + 9*(h - r)) := by
  rw [karvonen_bpm, show (r : ℚ) + (0.90 : ℚ) * ((h : ℚ) - (r : ℚ)) =
    ((10*r + 9*(h - r) : ℤ) : ℚ)/10 by push_cast; ring]
  exact pyround_div_ten _

/-- A five-zone list with strictly increasing boundaries, first lower
bound 0 and open last zone assigns every nonnegative value to exactly one
zone. -/
theorem five_zone_cover (n1 n2 n3 n4 n5 : String) (b1 b2 b3 b4 : ℤ)
    (h1 : 0 < b1) (h2 : b1 < b2) (h3 : b2 < b3) (h4 : b3 < b4)
    (v : ℤ) (hv : 0 ≤ v) :
    ∃! i, zoneMem [(n1, 0, some b1), (n2, b1, some b2), (n3, b2, some b3),
      (n4, b3, some b4), (n5, b4, none)] i v = true := by
  have hmem : ∀ i, zoneMem [(n1, 0, some b1), (n2, b1, some b2), (n3, b2, some b3),
      (n4, b3, some b4), (n5, b4, none)] i v = true ↔
      (i = 0 ∧ 0 ≤ v ∧ v < b1) ∨ (i = 1 ∧ b1 ≤ v ∧ v < b2) ∨
      (i = 2 ∧ b2 ≤ v ∧ v < b3) ∨ (i = 3 ∧ b3 ≤ v ∧ v < b4) ∨
      (i = 4 ∧ b4 ≤ v) := by
    intro i
    match i with
    | 0 => simp [zoneMem, zone_contains]
    | 1 => simp [zoneMem, zone_contains]
    | 2 => simp [zoneMem, zone_contains]
    | 3 => simp [zoneMem, zone_contains]
    | 4 => simp [zoneMem, zone_contains]
    | (n + 5) =>
      have : List.get? [(n1, 0, some b1), (n2, b1, some b2), (n3, b2, some b3),
          (n4, b3, some b4), (n5, b4, none)] (n + 5) = none := by
        apply List.get?_eq_none.2
        simp
      simp [zoneMem, this]
  by_cases c1 : v < b1
  · refine ⟨0, (hmem 0).2 (Or.inl ⟨rfl, hv, c1⟩), fun j hj => ?_⟩
    rcases (hmem j).1 hj with ⟨rfl, _⟩ | ⟨rfl, hl, _⟩ | ⟨rfl, hl, _⟩ | ⟨rfl, hl, _⟩ | ⟨rfl, hl⟩
    · rfl
    all_goals omega
  by_cases c2 : v < b2
  · refine ⟨1, (hmem 1).2 (Or.inr (Or.inl ⟨rfl, by omega, c2⟩)), fun j hj => ?_⟩
    rcases (hmem j).1 hj with ⟨rfl, _, hu⟩ | ⟨rfl, _⟩ | ⟨rfl, hl, _⟩ | ⟨rfl, hl, _⟩ | ⟨rfl, hl⟩
    · omega
    · rfl
    all_goals omega
  by_cases c3 : v < b3
  · refine ⟨2, (hmem 2).2 (Or.inr (Or.inr (Or.inl ⟨rfl, by omega, c3⟩))), fun j hj => ?_⟩
    rcases (hmem j).1 hj with ⟨rfl, _, hu⟩ | ⟨rfl, _, hu⟩ | ⟨rfl, _⟩ | ⟨rfl, hl, _⟩ | ⟨rfl, hl⟩
    · omega
    · omega
    · rfl
    all_goals omega
  by_cases c4 : v < b4
  · refine ⟨3, (hmem 3).2 (Or.inr (Or.inr (Or.inr (Or.inl ⟨rfl, by omega, c4⟩)))),
      fun j hj => ?_⟩
    rcases (hmem j).1 hj with ⟨rfl, _, hu⟩ | ⟨rfl, _, hu⟩ | ⟨rfl, _, hu⟩ | ⟨rfl, _⟩ | ⟨rfl, hl⟩
    · omega
    · omega
    · omega
    · rfl
    · omega
  · refine ⟨4, (hmem 4).2 (Or.inr (Or.inr (Or.inr (Or.inr ⟨rfl, by omega⟩)))),
      fun j hj => ?_⟩
    rcases (hmem j).1 hj with ⟨rfl, _, hu⟩ | ⟨rfl, _, hu⟩ | ⟨rfl, _, hu⟩ | ⟨rfl, _, hu⟩ | ⟨rfl, _⟩
    · omega
    · omega
    · omega
    · omega
    · rfl

/-- C6 (counterexample): `hr_max = 5 > 0`, yet the percent_max boundaries
are `[0, 3, 3, 4, 4]` — not strictly increasing (Z2 = [3,3) and
Z4 = [4,4) are empty), so "for any hr_max > 0" is too weak a premise. -/
theorem zones_small_hrmax_cex :
    (0 : ℤ) < 5 ∧
    zones_percent_max 5 =
      [("Z1", 0, some 3), ("Z2", 3, some 3), ("Z3", 3, some 4),
       ("Z4", 4, some 4), ("Z5", 4, none)] ∧
    ¬((3 : ℤ) < 3) := by
  refine ⟨by norm_num, ?_, by norm_num⟩
  norm_num [zones_percent_max]

/-- C6 (amended): for `hr_max ≥ 8` the percent_max zones, and for
`hr_rest ≥ 1` with `hr_max ≥ hr_rest + 9` the karvonen zones, are
contiguous (each upper bound is the next lower bound, by construction of
the returned list), have Z1 lower bound 0 and an open-ended Z5, have
strictly increasing boundaries, and assign every bpm ≥ 0 to exactly one
zone (union covers, zones do not overlap). -/
theorem zones_invariants (h r : ℤ) (hp : 8 ≤ h) :
    (∃ b1 b2 b3 b4 : ℤ,
      zones_percent_max h =
        [("Z1", 0, some b1), ("Z2", b1, some b2), ("Z3", b2, some b3),
         ("Z4", b3, some b4), ("Z5", b4, none)] ∧
      0 < b1 ∧ b1 < b2 ∧ b2 < b3 ∧ b3 < b4 ∧
      (∀ v : ℤ, 0 ≤ v → ∃! i, zoneMem (zones_percent_max h) i v = true)) ∧
    (1 ≤ r → r + 9 ≤ h →
      ∃ b1 b2 b3 b4 : ℤ,
      zones_karvonen h r =
        [("Z1", 0, some b1), ("Z2", b1, some b2), ("Z3", b2, some b3),
         ("Z4", b3, some b4), ("Z5", b4, none)] ∧
      0 < b1 ∧ b1 < b2 ∧ b2 < b3 ∧ b3 < b4 ∧
      (∀ v : ℤ, 0 ≤ v → ∃! i, zoneMem (zones_karvonen h r) i v = true)) := by
  constructor
  · refine ⟨⌊(0.60 : ℚ) * h⌋, ⌊(0.70 : ℚ) * h⌋, ⌊(0.80 : ℚ) * h⌋, ⌊(0.90 : ℚ) * h⌋,
      rfl, ?_⟩
    rw [pm_b6, pm_b7, pm_b8, pm_b9]
    have hinc : 0 < (6*h)/10 ∧ (6*h)/10 < (7*h)/10 ∧ (7*h)/10 < (8*h)/10 ∧
        (8*h)/10 < (9*h)/10 := by
      by_cases h20 : h < 20
      · interval_cases h <;> decide
      · omega
    refine ⟨hinc.1, hinc.2.1, hinc.2.2.1, hinc.2.2.2, ?_⟩
    intro v hv
    have hz : zones_percent_max h =
        [("Z1", 0, some ((6*h)/10)), ("Z2", (6*h)/10, some ((7*h)/10)),
         ("Z3", (7*h)/10, some ((8*h)/10)), ("Z4", (8*h)/10, some ((9*h)/10)),
         ("Z5", (9*h)/10, none)] := by
      rw [zones_percent_max, pm_b6, pm_b7, pm_b8, pm_b9]
    rw [hz]
    exact five_zone_cover _ _ _ _ _ _ _ _ _
      hinc.1 hinc.2.1 hinc.2.2.1 hinc.2.2.2 v hv
  · intro hr1 hd
    refine ⟨karvonen_bpm h r 0.60, karvonen_bpm h r 0.70, karvonen_bpm h r 0.80,
      karvonen_bpm h r 0.90, rfl, ?_⟩
    rw [kv_b6, kv_b7, kv_b8, kv_b9]
    have hd9 : 9 ≤ h - r := by omega
    have hpos : 0 < pyround_tenths (10*r + 6*(h - r)) := by
      have := pyround_tenths_bounds (10*r + 6*(h - r))
      omega
    refine ⟨hpos, kv_step67 r (h - r) hd9, kv_step78 r (h - r) hd9,
      kv_step89 r (h - r) hd9, ?_⟩
    intro v hv
    have hz : zones_karvonen h r =
        [("Z1", 0, some (pyround_tenths (10*r + 6*(h - r)))),
         ("Z2", pyround_tenths (10*r + 6*(h - r)), some (pyround_tenths (10*r + 7*(h - r)))),
         ("Z3", pyround_tenths (10*r + 7*(h - r)), some (pyround_tenths (10*r + 8*(h - r)))),
         ("Z4", pyround_tenths (10*r + 8*(h - r)), some (pyround_tenths (10*r + 9*(h - r)))),
         ("Z5", pyround_tenths (10*r + 9*(h - r)), none)] := by
      rw [zones_karvonen, kv_b6, kv_b7, kv_b8, kv_b9]
    rw [hz]
    exact five_zone_cover _ _ _ _ _ _ _ _ _
      hpos (kv_step67 r (h - r) hd9) (kv_step78 r (h - r) hd9)
      (kv_step89 r (h - r) hd9) v hv

/-- Witness for C6 at `hr_max = 200`, `hr_rest = 60`: both halves of the
instantiated conclusion, with every hypothesis discharged concretely. -/
theorem zones_invariants_witness :
    ((8 : ℤ) ≤ 200 ∧ (1 : ℤ) ≤ 60 ∧ (60 : ℤ) + 9 ≤ 200) ∧
    (∃ b1 b2 b3 b4 : ℤ,
      zones_percent_max 200 =
        [("Z1", 0, some b1), ("Z2", b1, some b2), ("Z3", b2, some b3),
         ("Z4", b3, some b4), ("Z5", b4, none)] ∧
      0 < b1 ∧ b1 < b2 ∧ b2 < b3 ∧ b3 < b4 ∧
      (∀ v : ℤ, 0 ≤ v → ∃! i, zoneMem (zones_percent_max 200) i v = true)) ∧
    (∃ b1 b2 b3 b4 : ℤ,
      zones_karvonen 200 60 =
        [("Z1", 0, some b1), ("Z2", b1, some b2), ("Z3", b2, some b3),
         ("Z4", b3, some b4), ("Z5", b4, none)] ∧
      0 < b1 ∧ b1 < b2 ∧ b2 < b3 ∧ b3 < b4 ∧
      (∀ v : ℤ, 0 ≤ v → ∃! i, zoneMem (zones_karvonen 200 60) i v = true)) :=
  ⟨by norm_num,
   (zones_invariants 200 60 (by norm_num)).1,
   (zones_invariants 200 60 (by norm_num)).2 (by norm_num) (by norm_num)⟩
